import Mathlib

/-!
# cowman: the rename command of the bot

A shallow embedding of `src/main.go`: the command pattern compiled in `init`
(`regexp.MustCompile("(?i)^rename (.+) to (.+)$")`), its use through
`FindStringSubmatch`, and the response decision `respond`.

Go strings are embedded as Lean `String`s and the pattern engine walks their
characters (`String.data`).  Offsets are counted in characters; every literal
rune of the pattern is ASCII, so a rune boundary of the Go string is a
character boundary here.
-/

set_option autoImplicit false

namespace Cowman

/-! ## The fragment of `regexp` the pattern uses -/

/-- Single-rune operators of `regexp/syntax` that occur in the pattern:
a literal rune (with the fold-case flag of `(?i)`) and `.` without the `s`
flag. -/
inductive RuneOp where
  | literal (r : Char) (foldCase : Bool)
  | anyCharNotNL
  deriving DecidableEq

/-- Go's `unicode.SimpleFold` orbit test for an ASCII pattern rune `r`: `c` is
the other ASCII case of `r` (32 code points apart), or one of the two
non-ASCII runes that fold onto an ASCII letter (KELVIN SIGN onto `k`, LATIN
SMALL LETTER LONG S onto `s`). -/
def foldMatches (r c : Char) : Bool :=
  (decide (97 ≤ r.toNat) && decide (r.toNat ≤ 122) && c.toNat + 32 == r.toNat)
    || (decide (65 ≤ r.toNat) && decide (r.toNat ≤ 90) && c.toNat == r.toNat + 32)
    || ((r == 'k' || r == 'K') && c.toNat == 0x212A)
    || ((r == 's' || r == 'S') && c.toNat == 0x017F)

/-- Does the rune `c` of the text satisfy the operator (`syntax.Inst.MatchRune`). -/
def RuneOp.matches : RuneOp → Char → Bool
  | .literal r foldCase, c => c == r || (foldCase && foldMatches r c)
  | .anyCharNotNL, c => c != '\n'

/-- Parsed pattern (`syntax.Regexp`), restricted to the operators of the
command pattern.  `plus` is the greedy `x+` over a single-rune operator. -/
inductive Regex where
  | emptyMatch
  | beginText
  | endText
  | rune (op : RuneOp)
  | plus (op : RuneOp)
  | capture (idx : Nat) (sub : Regex)
  | concat (a b : Regex)

/-- One thread of the matching machine: the offset reached, the text still to
read, and the capture array (`cap[2*i]`, `cap[2*i+1]` delimit group `i`;
`none` stands for Go's `-1`). -/
structure Thread where
  pos : Nat
  rest : List Char
  cap : List (Option Nat)

/-- Greedy `x+` over a single-rune operator: after a rune that satisfies
`op`, going round the loop once more is preferred to leaving it. `k` is the
rest of the program. -/
def plusLoop (op : RuneOp) (cap : List (Option Nat)) (k : Thread → Option Thread) :
    Nat → List Char → Option Thread
  | _, [] => none
  | pos, c :: cs =>
    if op.matches c then
      (plusLoop op cap k (pos + 1) cs).orElse (fun _ => k ⟨pos + 1, cs, cap⟩)
    else none

/-- Backtracking execution with leftmost-first priorities, as Go's
`regexp` specifies for its (non-POSIX) patterns: the first thread, in
priority order, that reaches the end of the program wins. -/
def Regex.run : Regex → Thread → (Thread → Option Thread) → Option Thread
  | .emptyMatch, t, k => k t
  | .beginText, t, k => if t.pos = 0 then k t else none
  | .endText, t, k =>
    match t.rest with
    | [] => k t
    | _ :: _ => none
  | .rune op, t, k =>
    match t.rest with
    | [] => none
    | c :: cs => if op.matches c then k ⟨t.pos + 1, cs, t.cap⟩ else none
  | .plus op, t, k => plusLoop op t.cap k t.pos t.rest
  | .capture idx sub, t, k =>
    sub.run ⟨t.pos, t.rest, t.cap.set (2 * idx) (some t.pos)⟩
      (fun u => k ⟨u.pos, u.rest, u.cap.set (2 * idx + 1) (some u.pos)⟩)
  | .concat a b, t, k => a.run t (fun u => b.run u k)

/-- A literal string of the pattern, rune after rune. -/
def Regex.literal (foldCase : Bool) : List Char → Regex
  | [] => .emptyMatch
  | r :: rs => .concat (.rune (.literal r foldCase)) (Regex.literal foldCase rs)

/-- Compiled pattern (`regexp.Regexp`): the expression, wrapped in group 0,
and the number of parenthesised groups. -/
structure Regexp where
  expr : Regex
  numSubexp : Nat

/-- Leftmost search: the match is tried at offset 0 first, then at each later
offset in turn. -/
def Regexp.exec (re : Regexp) : Nat → List Char → Option Thread
  | pos, [] =>
    (Regex.capture 0 re.expr).run ⟨pos, [], List.replicate (2 * (re.numSubexp + 1)) none⟩ some
  | pos, c :: cs =>
    ((Regex.capture 0 re.expr).run
        ⟨pos, c :: cs, List.replicate (2 * (re.numSubexp + 1)) none⟩ some).orElse
      (fun _ => re.exec (pos + 1) cs)

/-- Text of group `i` for a capture array over the text `s`; a group that
did not take part gives the empty string. -/
def submatch (s : List Char) (cap : List (Option Nat)) (i : Nat) : String :=
  match cap.getD (2 * i) none, cap.getD (2 * i + 1) none with
  | some a, some b => String.mk ((s.take b).drop a)
  | _, _ => ""

/-- Go's `(*Regexp).FindStringSubmatch`: `none` is the nil slice, otherwise
the texts of group 0 (the whole match) and of each parenthesised group. -/
def Regexp.FindStringSubmatch (re : Regexp) (s : String) : Option (List String) :=
  match re.exec 0 s.data with
  | none => none
  | some t => some ((List.range (re.numSubexp + 1)).map (submatch s.data t.cap))

/-! ## `src/main.go` -/

/-- The package variable `matcher`, as `init` sets it:
`regexp.MustCompile("(?i)^rename (.+) to (.+)$")`. -/
def matcher : Regexp where
  expr :=
    .concat .beginText
      (.concat (Regex.literal true "rename ".data)
        (.concat (.capture 1 (.plus .anyCharNotNL))
          (.concat (Regex.literal true " to ".data)
            (.concat (.capture 2 (.plus .anyCharNotNL)) .endText))))
  numSubexp := 2

/-- A user as `respond` reads it (`discordgo.User`): id and username. -/
structure User where
  ID : String
  Username : String
  deriving DecidableEq

/-- The `discordgo.MessageCreate` fields `respond` reads. -/
structure MessageCreate where
  Author : User
  Content : String
  Mentions : List User
  GuildID : String
  deriving DecidableEq

/-- Arguments of one `GuildMemberNickname(guildID, userID, nickname)` request. -/
structure NickRequest where
  guildID : String
  userID : String
  nickname : String
  deriving DecidableEq

/-- Part `s.State` of the session: the bot's own user. -/
structure State where
  User : User

/-- The `discordgo.Session` as `respond` uses it. `answer` is how the platform
answers a nickname request: `none` is the nil error, `some e` an error whose
`Error()` text is `e`. `requests` records the requests sent so far, oldest
first. -/
structure Session where
  State : State
  answer : NickRequest → Option String
  requests : List NickRequest

/-- Method `(*Session).GuildMemberNickname`: sends the request and returns the
platform's answer. -/
def Session.GuildMemberNickname (s : Session) (guildID userID nickname : String) :
    Option String × Session :=
  (s.answer ⟨guildID, userID, nickname⟩,
    { s with requests := s.requests ++ [⟨guildID, userID, nickname⟩] })

/-- Function `respond` of `main.go`. The result is `Except.error` when Go would
fault on an index out of range, otherwise the returned `*string` (`none` is
nil) with the session after the call. -/
def respond (s : Session) (m : MessageCreate) : Except String (Option String × Session) :=
  if m.Author.ID = s.State.User.ID then
    .ok (none, s)
  else
    match matcher.FindStringSubmatch m.Content with
    | none => .ok (none, s)
    | some groups =>
      match groups[2]? with
      | none => .error "index out of range [2]"
      | some newNick =>
        let mCount := m.Mentions.length
        if mCount < 1 then
          .ok (none, s)
        else if mCount > 1 then
          .ok (some ("Error: You mentioned " ++ toString mCount ++ " users instead of 1"), s)
        else
          match m.Mentions[0]? with
          | none => .error "index out of range [0]"
          | some ment =>
            match s.GuildMemberNickname m.GuildID ment.ID newNick with
            | (some err, s1) =>
              .ok (some ("Error: Could not rename " ++ ment.Username ++ " to " ++ newNick
                ++ ": " ++ err), s1)
            | (none, s1) =>
              .ok (some ("Renamed " ++ ment.Username ++ " to " ++ newNick), s1)

/-! ## Vocabulary of the specification -/

/-- Two texts are equal ignoring letter case. -/
def EqIgnoreCase (a b : String) : Prop :=
  a.data.map Char.toLower = b.data.map Char.toLower

instance (a b : String) : Decidable (EqIgnoreCase a b) := by
  unfold EqIgnoreCase; infer_instance

/-- The text is `R ++ X ++ T ++ Y` with `R` equal to `"rename "` and `T` equal
to `" to "` ignoring letter case, and `X`, `Y` non-empty. -/
def IsSplit (text X Y : String) : Prop :=
  ∃ R T : String, text = R ++ X ++ T ++ Y ∧ EqIgnoreCase R "rename " ∧
    EqIgnoreCase T " to " ∧ X ≠ "" ∧ Y ≠ ""

/-- A split of the text whose two spans hold no line feed. -/
def IsCommand (text X Y : String) : Prop :=
  IsSplit text X Y ∧ '\n' ∉ X.data ∧ '\n' ∉ Y.data

/-- The parsed command of the specification: absent when the pattern does
not match, otherwise the texts of group 1 (subject) and group 2 (new name). -/
def parsedCommand (text : String) : Option (String × String) :=
  match matcher.FindStringSubmatch text with
  | none => none
  | some groups => some (groups.getD 1 "", groups.getD 2 "")

/-! ## Auxiliary definitions for the proofs -/

/-- The runes of the two literals of the pattern. -/
def patternRunes : List Char := ['r', 'e', 'n', 'a', 'm', 't', 'o', ' ']

/-- The regular expression after group 1: the separator, group 2 and the end
of the text. -/
def afterGroup1 : Regex :=
  .concat (Regex.literal true " to ".data) (.concat (.capture 2 (.plus .anyCharNotNL)) .endText)

/-- The regular expression from group 1 on. -/
def fromGroup1 : Regex :=
  .concat (.capture 1 (.plus .anyCharNotNL)) afterGroup1

/-- The session after one nickname request. -/
def Session.sent (s : Session) (q : NickRequest) : Session :=
  { s with requests := s.requests ++ [q] }

/-! ## Sample inputs -/

/-- The bot's own user. -/
def cowman : User := ⟨"id-cowman", "cowman"⟩

/-- A user who writes to the bot. -/
def carol : User := ⟨"id-carol", "carol"⟩

/-- A user who gets mentioned. -/
def alice : User := ⟨"id-alice", "alice"⟩

/-- Another user who gets mentioned. -/
def dave : User := ⟨"id-dave", "dave"⟩

/-- A fresh session of the bot on a platform that gives every nickname
request the same answer. -/
def session (answer : Option String) : Session :=
  ⟨⟨cowman⟩, fun _ => answer, []⟩

/-- A message in the sample guild. -/
def message (author : User) (text : String) (mentions : List User) : MessageCreate :=
  ⟨author, text, mentions, "id-guild"⟩

/-! ## Characters and case -/

theorem toNat_ofNat_small (n : Nat) (h : n < 0xd800) : (Char.ofNat n).toNat = n := by
  have hv : n.isValidChar := Or.inl h
  unfold Char.ofNat
  rw [dif_pos hv]
  show (BitVec.ofNatLt n _).toNat = n
  rfl

theorem toNat_injective (c d : Char) (h : c.toNat = d.toNat) : c = d := by
  rw [← Char.ofNat_toNat c, ← Char.ofNat_toNat d, h]

theorem toLower_eq_lower_iff (c r : Char) (hr1 : 97 ≤ r.toNat) (hr2 : r.toNat ≤ 122) :
    c.toLower = r ↔ c = r ∨ c.toNat + 32 = r.toNat := by
  unfold Char.toLower
  simp only []
  split
  · rename_i h
    constructor
    · intro he
      right
      rw [← he, toNat_ofNat_small _ (by omega)]
    · rintro (he | he)
      · subst he; omega
      · apply toNat_injective
        rw [toNat_ofNat_small _ (by omega)]; exact he
  · rename_i h
    constructor
    · intro he; exact Or.inl he
    · rintro (he | he)
      · exact he
      · omega

theorem toLower_eq_space_iff (c : Char) : c.toLower = ' ' ↔ c = ' ' := by
  unfold Char.toLower
  simp only []
  split
  · rename_i h
    constructor
    · intro he
      have h2 := congrArg Char.toNat he
      rw [toNat_ofNat_small _ (by omega)] at h2
      have : (' ' : Char).toNat = 32 := by decide
      omega
    · intro he
      subst he
      have : (' ' : Char).toNat = 32 := by decide
      omega
  · exact Iff.rfl

/-- Under `(?i)` a literal rune of the pattern accepts exactly the characters
whose lower case is that rune. -/
theorem literal_matches_iff (r c : Char) (hr : r ∈ patternRunes) :
    (RuneOp.literal r true).matches c = true ↔ c.toLower = r := by
  have key : ∀ r : Char, 97 ≤ r.toNat → r.toNat ≤ 122 → r ≠ 'k' → r ≠ 's' →
      ((RuneOp.literal r true).matches c = true ↔ c.toLower = r) := by
    intro r h1 h2 hk hs
    rw [toLower_eq_lower_iff c r h1 h2]
    have hK : r ≠ 'K' := by
      intro h; subst h; revert h1; decide
    have hS : r ≠ 'S' := by
      intro h; subst h; revert h1; decide
    simp only [RuneOp.matches, foldMatches, Bool.true_and, Bool.or_eq_true, Bool.and_eq_true,
      beq_iff_eq, decide_eq_true_eq, hk, hs, hK, hS, false_and, or_false, false_or]
    constructor
    · rintro (h | h | h)
      · exact Or.inl h
      · exact Or.inr h.2
      · omega
    · rintro (h | h)
      · exact Or.inl h
      · exact Or.inr (Or.inl ⟨⟨h1, h2⟩, h⟩)
  simp only [patternRunes, List.mem_cons, List.mem_singleton, List.not_mem_nil, or_false] at hr
  rcases hr with h | h | h | h | h | h | h | h
  all_goals subst h
  case _ => exact key _ (by decide) (by decide) (by decide) (by decide)
  case _ => exact key _ (by decide) (by decide) (by decide) (by decide)
  case _ => exact key _ (by decide) (by decide) (by decide) (by decide)
  case _ => exact key _ (by decide) (by decide) (by decide) (by decide)
  case _ => exact key _ (by decide) (by decide) (by decide) (by decide)
  case _ => exact key _ (by decide) (by decide) (by decide) (by decide)
  case _ => exact key _ (by decide) (by decide) (by decide) (by decide)
  case _ =>
    rw [toLower_eq_space_iff]
    simp only [RuneOp.matches, foldMatches, Bool.true_and, Bool.or_eq_true, Bool.and_eq_true,
      beq_iff_eq, decide_eq_true_eq]
    have h32 : (' ' : Char).toNat = 32 := by decide
    constructor
    · rintro (h | h)
      · exact h
      · rw [h32] at h
        rcases h with ((h | h) | h) | h
        · omega
        · omega
        · exact absurd h.1 (by decide)
        · exact absurd h.1 (by decide)
    · intro h; exact Or.inl h

/-! ## The matching machine on the command pattern -/

theorem plusLoop_eq_none (op : RuneOp) (cap : List (Option Nat)) (k : Thread → Option Thread)
    (rest : List Char) (pos : Nat) :
    plusLoop op cap k pos rest = none ↔
      ∀ n, 0 < n → n ≤ rest.length → (∀ c ∈ rest.take n, op.matches c = true) →
        k ⟨pos + n, rest.drop n, cap⟩ = none := by
  induction rest generalizing pos with
  | nil =>
    simp only [plusLoop, List.length_nil, true_iff]
    intro n h1 h2; omega
  | cons c cs ih =>
    unfold plusLoop
    by_cases hm : op.matches c = true
    · rw [if_pos hm]
      constructor
      · intro h n hn1 hn2 hall
        cases hp : plusLoop op cap k (pos + 1) cs with
        | some r => rw [hp] at h; simp [Option.orElse] at h
        | none =>
          rw [hp] at h
          simp only [Option.orElse] at h
          obtain _ | n := n
          · omega
          · obtain _ | n := n
            · simpa using h
            · have := (ih (pos + 1)).1 hp (n + 1) (by omega)
                (by simp only [List.length_cons] at hn2; omega)
                (by
                  intro d hd
                  apply hall
                  rw [List.take_succ_cons]
                  exact List.mem_cons_of_mem _ hd)
              rw [List.drop_succ_cons]
              have e : pos + (n + 1 + 1) = pos + 1 + (n + 1) := by omega
              rw [e]; exact this
      · intro h
        have h1 : plusLoop op cap k (pos + 1) cs = none := by
          rw [ih]
          intro n hn1 hn2 hall
          have := h (n + 1) (by omega) (by simp only [List.length_cons]; omega)
            (by
              intro d hd
              rw [List.take_succ_cons] at hd
              rcases List.mem_cons.1 hd with hd | hd
              · rw [hd]; exact hm
              · exact hall d hd)
          rw [List.drop_succ_cons] at this
          have e : pos + (n + 1) = pos + 1 + n := by omega
          rw [← e]; exact this
        rw [h1]
        simp only [Option.orElse]
        have := h 1 (by omega) (by simp) (by simpa using hm)
        simpa using this
    · rw [if_neg hm]
      simp only [true_iff]
      intro n hn1 hn2 hall
      exfalso
      apply hm
      apply hall
      obtain _ | n := n
      · omega
      · rw [List.take_succ_cons]; exact List.mem_cons_self _ _

theorem plusLoop_eq_some (op : RuneOp) (cap : List (Option Nat)) (k : Thread → Option Thread)
    (rest : List Char) (pos : Nat) (r : Thread) :
    plusLoop op cap k pos rest = some r ↔
      ∃ n, 0 < n ∧ n ≤ rest.length ∧ (∀ c ∈ rest.take n, op.matches c = true) ∧
        k ⟨pos + n, rest.drop n, cap⟩ = some r ∧
        ∀ n', n < n' → n' ≤ rest.length → (∀ c ∈ rest.take n', op.matches c = true) →
          k ⟨pos + n', rest.drop n', cap⟩ = none := by
  induction rest generalizing pos r with
  | nil =>
    simp only [plusLoop, List.length_nil]
    refine ⟨fun h => absurd h (by simp), ?_⟩
    rintro ⟨n, h1, h2, _⟩; omega
  | cons c cs ih =>
    have hall : ∀ n, (∀ d ∈ (c :: cs).take (n + 1), op.matches d = true) ↔
        (op.matches c = true ∧ ∀ d ∈ cs.take n, op.matches d = true) := by
      intro n; simp [List.take_succ_cons]
    have hpos : ∀ n, pos + (n + 1) = pos + 1 + n := by intro n; omega
    unfold plusLoop
    by_cases hm : op.matches c = true
    · rw [if_pos hm]
      cases hp : plusLoop op cap k (pos + 1) cs with
      | some r' =>
        obtain ⟨n0, h01, h02, h03, h04, h05⟩ := (ih (pos + 1) r').1 hp
        simp only [Option.orElse, Option.some.injEq]
        constructor
        · intro e
          subst e
          refine ⟨n0 + 1, by omega, by simp only [List.length_cons]; omega,
            (hall n0).2 ⟨hm, h03⟩, ?_, ?_⟩
          · rw [List.drop_succ_cons, hpos]; exact h04
          · intro n' hn1 hn2 hn3
            obtain _ | n' := n'
            · omega
            · rw [List.drop_succ_cons, hpos]
              exact h05 n' (by omega) (by simp only [List.length_cons] at hn2; omega)
                ((hall n').1 hn3).2
        · rintro ⟨n, h1, h2, h3, h4, h5⟩
          obtain _ | n := n
          · omega
          · rw [List.drop_succ_cons, hpos] at h4
            simp only [List.length_cons] at h2
            rcases Nat.lt_trichotomy n n0 with hlt | heq | hgt
            · have := h5 (n0 + 1) (by omega) (by simp only [List.length_cons]; omega)
                ((hall n0).2 ⟨hm, h03⟩)
              rw [List.drop_succ_cons, hpos, h04] at this
              exact absurd this (by simp)
            · subst heq
              rw [h04] at h4
              exact Option.some.inj h4
            · have := h05 n hgt (by omega) ((hall n).1 h3).2
              rw [h4] at this
              exact absurd this (by simp)
      | none =>
        have hnone := (plusLoop_eq_none op cap k cs (pos + 1)).1 hp
        simp only [Option.orElse]
        constructor
        · intro e
          refine ⟨1, by omega, by simp, by simpa using hm, by simpa using e, ?_⟩
          intro n' hn1 hn2 hn3
          obtain _ | n' := n'
          · omega
          · rw [List.drop_succ_cons, hpos]
            exact hnone n' (by omega) (by simp only [List.length_cons] at hn2; omega)
              ((hall n').1 hn3).2
        · rintro ⟨n, h1, h2, h3, h4, h5⟩
          obtain _ | n := n
          · omega
          · obtain _ | n := n
            · simpa using h4
            · rw [List.drop_succ_cons, hpos] at h4
              have := hnone (n + 1) (by omega) (by simp only [List.length_cons] at h2; omega)
                ((hall (n + 1)).1 h3).2
              rw [h4] at this
              exact absurd this (by simp)
    · rw [if_neg hm]
      refine ⟨fun h => absurd h (by simp), ?_⟩
      rintro ⟨n, h1, h2, h3, _⟩
      obtain _ | n := n
      · omega
      · exact absurd ((hall n).1 h3).1 hm

theorem literal_run (foldCase : Bool) (L : List Char) (t : Thread)
    (k : Thread → Option Thread) (r : Thread) :
    (Regex.literal foldCase L).run t k = some r ↔
      ∃ P rest, t.rest = P ++ rest ∧
        List.Forall₂ (fun a c => (RuneOp.literal a foldCase).matches c = true) L P ∧
        k ⟨t.pos + L.length, rest, t.cap⟩ = some r := by
  induction L generalizing t with
  | nil =>
    simp only [Regex.literal, Regex.run, List.length_nil, Nat.add_zero]
    constructor
    · intro h; exact ⟨[], t.rest, rfl, List.Forall₂.nil, h⟩
    · rintro ⟨P, rest, h1, h2, h3⟩
      cases h2
      simp only [List.nil_append] at h1
      rw [← h1] at h3; exact h3
  | cons a L ih =>
    simp only [Regex.literal, Regex.run]
    cases hr : t.rest with
    | nil =>
      refine ⟨fun h => absurd h (by simp), ?_⟩
      rintro ⟨P, rest, h1, h2, _⟩
      cases h2
      simp at h1
    | cons c cs =>
      simp only []
      by_cases hm : (RuneOp.literal a foldCase).matches c = true
      · rw [if_pos hm, ih]
        simp only [List.length_cons]
        constructor
        · rintro ⟨P, rest, h1, h2, h3⟩
          refine ⟨c :: P, rest, by simp [h1], List.Forall₂.cons hm h2, ?_⟩
          have e : t.pos + (L.length + 1) = t.pos + 1 + L.length := by omega
          rw [e]; exact h3
        · rintro ⟨P, rest, h1, h2, h3⟩
          cases h2 with
          | cons hh ht =>
            rename_i c' P'
            simp only [List.cons_append, List.cons.injEq] at h1
            refine ⟨P', rest, h1.2, ht, ?_⟩
            have e : t.pos + (L.length + 1) = t.pos + 1 + L.length := by omega
            rw [← e]; exact h3
      · rw [if_neg hm]
        refine ⟨fun h => absurd h (by simp), ?_⟩
        rintro ⟨P, rest, h1, h2, _⟩
        cases h2 with
        | cons hh ht =>
          simp only [List.cons_append, List.cons.injEq] at h1
          rw [h1.1] at hm
          exact absurd hh hm

theorem concat_run (a b : Regex) (t : Thread) (k : Thread → Option Thread) :
    (Regex.concat a b).run t k = a.run t (fun u => b.run u k) := rfl

theorem capture_run (idx : Nat) (sub : Regex) (t : Thread) (k : Thread → Option Thread) :
    (Regex.capture idx sub).run t k =
      sub.run ⟨t.pos, t.rest, t.cap.set (2 * idx) (some t.pos)⟩
        (fun u => k ⟨u.pos, u.rest, u.cap.set (2 * idx + 1) (some u.pos)⟩) := rfl

theorem plus_run (op : RuneOp) (t : Thread) (k : Thread → Option Thread) :
    (Regex.plus op).run t k = plusLoop op t.cap k t.pos t.rest := rfl

theorem beginText_run (t : Thread) (k : Thread → Option Thread) :
    Regex.beginText.run t k = if t.pos = 0 then k t else none := rfl

theorem endText_run (t : Thread) (k : Thread → Option Thread) (r : Thread) :
    Regex.endText.run t k = some r ↔ t.rest = [] ∧ k t = some r := by
  unfold Regex.run
  cases h : t.rest with
  | nil => simp
  | cons c cs => simp

theorem anyCharNotNL_all (l : List Char) :
    (∀ c ∈ l, RuneOp.anyCharNotNL.matches c = true) ↔ '\n' ∉ l := by
  simp only [RuneOp.matches, bne_iff_ne, ne_eq]
  constructor
  · intro h hmem; exact h _ hmem rfl
  · intro h c hc e; subst e; exact h hc

/-- Group 2 followed by the end of the text: the rest of the text is taken
whole, and must be non-empty and free of line feeds. -/
theorem group2_run (pos : Nat) (rest : List Char) (cap : List (Option Nat))
    (k : Thread → Option Thread) (r : Thread) :
    (Regex.concat (.capture 2 (.plus .anyCharNotNL)) .endText).run ⟨pos, rest, cap⟩ k = some r ↔
      rest ≠ [] ∧ '\n' ∉ rest ∧
        k ⟨pos + rest.length, [],
          (cap.set 4 (some pos)).set 5 (some (pos + rest.length))⟩ = some r := by
  rw [concat_run, capture_run, plus_run, plusLoop_eq_some]
  simp only [endText_run]
  constructor
  · rintro ⟨n, h1, h2, h3, ⟨h4, h5⟩, _⟩
    have hn : n = rest.length := by
      have := List.drop_eq_nil_iff.1 h4
      omega
    subst hn
    rw [List.take_length] at h3
    rw [List.drop_length] at h5
    refine ⟨?_, (anyCharNotNL_all rest).1 h3, h5⟩
    intro e; subst e; simp at h1
  · rintro ⟨h1, h2, h3⟩
    refine ⟨rest.length, List.length_pos.2 h1, le_refl _, ?_,
      ⟨by simp, by rw [List.drop_length]; exact h3⟩, ?_⟩
    · rw [List.take_length]; exact (anyCharNotNL_all rest).2 h2
    · intro n' hn1 hn2; omega

theorem forall2_literal_iff (L P : List Char) (hL : ∀ a ∈ L, a ∈ patternRunes) :
    List.Forall₂ (fun a c => (RuneOp.literal a true).matches c = true) L P ↔
      P.map Char.toLower = L := by
  induction L generalizing P with
  | nil =>
    constructor
    · intro h; cases h; rfl
    · intro h
      have : P = [] := by simpa using h
      subst this; exact List.Forall₂.nil
  | cons a L ih =>
    have ha : a ∈ patternRunes := hL a (List.mem_cons_self _ _)
    have hL2 : ∀ b ∈ L, b ∈ patternRunes := fun b hb => hL b (List.mem_cons_of_mem _ hb)
    cases P with
    | nil =>
      constructor
      · intro h; cases h
      · intro h; simp at h
    | cons c P =>
      rw [List.forall₂_cons, literal_matches_iff a c ha, ih P hL2]
      simp

theorem afterGroup1_run (pos : Nat) (rest : List Char) (cap : List (Option Nat))
    (k : Thread → Option Thread) (r : Thread) :
    afterGroup1.run ⟨pos, rest, cap⟩ k = some r ↔
      ∃ T Y, rest = T ++ Y ∧ T.map Char.toLower = " to ".data ∧ Y ≠ [] ∧ '\n' ∉ Y ∧
        k ⟨pos + rest.length, [],
          (cap.set 4 (some (pos + 4))).set 5 (some (pos + rest.length))⟩ = some r := by
  unfold afterGroup1
  rw [concat_run, literal_run]
  simp only [group2_run]
  have hL : ∀ a ∈ " to ".data, a ∈ patternRunes := by decide
  have hlen : " to ".data.length = 4 := by decide
  constructor
  · rintro ⟨P, Y, h1, h2, h3, h4, h5⟩
    rw [forall2_literal_iff _ _ hL] at h2
    have hP : P.length = 4 := by
      have := congrArg List.length h2
      rw [List.length_map, hlen] at this; exact this
    refine ⟨P, Y, h1, h2, h3, h4, ?_⟩
    have e : pos + rest.length = pos + " to ".data.length + Y.length := by
      rw [h1, List.length_append, hP, hlen]; omega
    rw [e]; exact h5
  · rintro ⟨T, Y, h1, h2, h3, h4, h5⟩
    have hP : T.length = 4 := by
      have := congrArg List.length h2
      rw [List.length_map, hlen] at this; exact this
    refine ⟨T, Y, h1, (forall2_literal_iff _ _ hL).2 h2, h3, h4, ?_⟩
    have e : pos + rest.length = pos + " to ".data.length + Y.length := by
      rw [h1, List.length_append, hP, hlen]; omega
    rw [← e]; exact h5

theorem afterGroup1_run_none (pos : Nat) (rest : List Char) (cap : List (Option Nat))
    (k : Thread → Option Thread) (hk : ∀ u, k u ≠ none) :
    afterGroup1.run ⟨pos, rest, cap⟩ k = none ↔
      ¬ ∃ T Y, rest = T ++ Y ∧ T.map Char.toLower = " to ".data ∧ Y ≠ [] ∧ '\n' ∉ Y := by
  constructor
  · rintro h ⟨T, Y, h1, h2, h3, h4⟩
    obtain ⟨r, hr⟩ := Option.ne_none_iff_exists'.1
      (hk ⟨pos + rest.length, [], (cap.set 4 (some (pos + 4))).set 5 (some (pos + rest.length))⟩)
    have := (afterGroup1_run pos rest cap k r).2 ⟨T, Y, h1, h2, h3, h4, hr⟩
    rw [h] at this
    exact absurd this (by simp)
  · intro h
    cases hrun : afterGroup1.run ⟨pos, rest, cap⟩ k with
    | none => rfl
    | some r =>
      obtain ⟨T, Y, h1, h2, h3, h4, _⟩ := (afterGroup1_run pos rest cap k r).1 hrun
      exact absurd ⟨T, Y, h1, h2, h3, h4⟩ h

/-- Group 1 is greedy: among the splits of the rest of the text, the machine
takes the one whose first span is longest. -/
theorem fromGroup1_run (pos : Nat) (rest : List Char) (cap : List (Option Nat))
    (k : Thread → Option Thread) (hk : ∀ u, k u ≠ none) (r : Thread) :
    fromGroup1.run ⟨pos, rest, cap⟩ k = some r ↔
      ∃ X T Y, rest = X ++ (T ++ Y) ∧ X ≠ [] ∧ '\n' ∉ X ∧
        T.map Char.toLower = " to ".data ∧ Y ≠ [] ∧ '\n' ∉ Y ∧
        (∀ X1 T1 Y1, rest = X1 ++ (T1 ++ Y1) → '\n' ∉ X1 →
          T1.map Char.toLower = " to ".data → Y1 ≠ [] → '\n' ∉ Y1 →
          X1.length ≤ X.length) ∧
        k ⟨pos + rest.length, [],
          ((((cap.set 2 (some pos)).set 3 (some (pos + X.length))).set 4
            (some (pos + X.length + 4))).set 5 (some (pos + rest.length)))⟩ = some r := by
  unfold fromGroup1
  rw [concat_run, capture_run, plus_run, plusLoop_eq_some]
  simp only [afterGroup1_run, afterGroup1_run_none _ _ _ k hk, anyCharNotNL_all]
  constructor
  · rintro ⟨n, h1, h2, h3, ⟨T, Y, h4, h5, h6, h7, h8⟩, hmax⟩
    have hX : (rest.take n).length = n := by
      rw [List.length_take]; omega
    have hsplit : rest = rest.take n ++ (T ++ Y) := by
      rw [← h4, List.take_append_drop]
    refine ⟨rest.take n, T, Y, hsplit, ?_, h3, h5, h6, h7, ?_, ?_⟩
    · intro e; rw [e] at hX; simp at hX; omega
    · intro X1 T1 Y1 e1 e2 e3 e4 e5
      rw [hX]
      by_contra hlt
      apply hmax X1.length (by omega) (by rw [e1, List.length_append]; omega)
        (by rw [e1, List.take_left]; exact e2)
      refine ⟨T1, Y1, ?_, e3, e4, e5⟩
      rw [e1, List.drop_left]
    · rw [hX]
      have e : pos + n + (rest.drop n).length = pos + rest.length := by
        rw [List.length_drop]; omega
      rw [← e]
      exact h8
  · rintro ⟨X, T, Y, h1, h2, h3, h4, h5, h6, hmax, h7⟩
    refine ⟨X.length, List.length_pos.2 h2, by rw [h1, List.length_append]; omega,
      by rw [h1, List.take_left]; exact h3, ⟨T, Y, by rw [h1, List.drop_left], h4, h5, h6, ?_⟩, ?_⟩
    · have e : pos + X.length + (rest.drop X.length).length = pos + rest.length := by
        rw [List.length_drop]
        have : X.length ≤ rest.length := by rw [h1, List.length_append]; omega
        omega
      rw [e]
      exact h7
    · rintro n' hn1 hn2 hn3 ⟨T1, Y1, e1, e2, e3, e4⟩
      have hX : (rest.take n').length = n' := by
        rw [List.length_take]; omega
      have := hmax (rest.take n') T1 Y1 (by rw [← e1, List.take_append_drop]) hn3 e2 e3 e4
      omega

/-- What the machine does on the command pattern started at offset 0. -/
theorem matcher_run_zero (text : List Char) (t : Thread) :
    (Regex.capture 0 matcher.expr).run
        ⟨0, text, List.replicate (2 * (matcher.numSubexp + 1)) none⟩ some = some t ↔
      ∃ R X T Y, text = R ++ (X ++ (T ++ Y)) ∧ R.map Char.toLower = "rename ".data ∧
        X ≠ [] ∧ '\n' ∉ X ∧ T.map Char.toLower = " to ".data ∧ Y ≠ [] ∧ '\n' ∉ Y ∧
        (∀ X1 T1 Y1, text = R ++ (X1 ++ (T1 ++ Y1)) → '\n' ∉ X1 →
          T1.map Char.toLower = " to ".data → Y1 ≠ [] → '\n' ∉ Y1 →
          X1.length ≤ X.length) ∧
        t = ⟨text.length, [], [some 0, some text.length, some 7, some (7 + X.length),
          some (7 + X.length + 4), some text.length]⟩ := by
  have hexpr : matcher.expr =
      .concat .beginText (.concat (Regex.literal true "rename ".data) fromGroup1) := rfl
  have hrep : List.replicate (2 * (matcher.numSubexp + 1)) (none : Option Nat) =
      [none, none, none, none, none, none] := rfl
  have hk : ∀ u : Thread, (fun u : Thread =>
      some (⟨u.pos, u.rest, u.cap.set (2 * 0 + 1) (some u.pos)⟩ : Thread)) u ≠ none := by
    intro u; simp
  have hL : ∀ a ∈ "rename ".data, a ∈ patternRunes := by decide
  have hlen : "rename ".data.length = 7 := by decide
  rw [capture_run, hexpr, concat_run, beginText_run, if_pos rfl, concat_run, literal_run, hrep]
  simp only [fromGroup1_run _ _ _ _ hk, forall2_literal_iff _ _ hL]
  constructor
  · rintro ⟨P, rest, h1, h2, X, T, Y, h3, h4, h5, h6, h7, h8, hmax, ht⟩
    have hP : P.length = 7 := by
      have := congrArg List.length h2
      simpa using this
    refine ⟨P, X, T, Y, by rw [h1, h3], h2, h4, h5, h6, h7, h8, ?_, ?_⟩
    · intro X1 T1 Y1 e1 e2 e3 e4 e5
      refine hmax X1 T1 Y1 ?_ e2 e3 e4 e5
      rw [h1] at e1
      exact List.append_cancel_left e1
    · have hlen2 : text.length = 7 + rest.length := by
        rw [h1, List.length_append, hP]
      rw [← Option.some.inj ht, hlen2]
      simp [List.set]
  · rintro ⟨R, X, T, Y, h1, h2, h4, h5, h6, h7, h8, hmax, ht⟩
    have hP : R.length = 7 := by
      have := congrArg List.length h2
      simpa using this
    refine ⟨R, X ++ (T ++ Y), h1, h2, X, T, Y, rfl, h4, h5, h6, h7, h8, ?_, ?_⟩
    · intro X1 T1 Y1 e1 e2 e3 e4 e5
      refine hmax X1 T1 Y1 ?_ e2 e3 e4 e5
      rw [h1, e1]
    · have hlen2 : text.length = 7 + (X ++ (T ++ Y)).length := by
        rw [h1, List.length_append, hP]
      rw [ht, hlen2]
      simp [List.set]

theorem matcher_run_pos (pos : Nat) (hpos : 0 < pos) (rest : List Char)
    (cap : List (Option Nat)) (k : Thread → Option Thread) :
    (Regex.capture 0 matcher.expr).run ⟨pos, rest, cap⟩ k = none := by
  have hexpr : matcher.expr =
      .concat .beginText (.concat (Regex.literal true "rename ".data) fromGroup1) := rfl
  rw [capture_run, hexpr, concat_run, beginText_run, if_neg]
  simp only
  omega

theorem matcher_exec_pos (rest : List Char) (pos : Nat) (hpos : 0 < pos) :
    matcher.exec pos rest = none := by
  induction rest generalizing pos with
  | nil => exact matcher_run_pos pos hpos _ _ _
  | cons c cs ih =>
    unfold Regexp.exec
    rw [matcher_run_pos pos hpos, ih (pos + 1) (by omega)]
    rfl

/-- The pattern starts with `^`, so the search succeeds at offset 0 or not at
all. -/
theorem matcher_exec_zero (text : List Char) :
    matcher.exec 0 text = (Regex.capture 0 matcher.expr).run
      ⟨0, text, List.replicate (2 * (matcher.numSubexp + 1)) none⟩ some := by
  cases text with
  | nil => rfl
  | cons c cs =>
    unfold Regexp.exec
    rw [matcher_exec_pos cs 1 (by omega)]
    cases (Regex.capture 0 matcher.expr).run
      ⟨0, c :: cs, List.replicate (2 * (matcher.numSubexp + 1)) none⟩ some <;> rfl

theorem submatch_groups (R X T Y : List Char) (hR : R.length = 7) (hT : T.length = 4) :
    (List.range (matcher.numSubexp + 1)).map (submatch (R ++ (X ++ (T ++ Y)))
      [some 0, some (R ++ (X ++ (T ++ Y))).length, some 7, some (7 + X.length),
        some (7 + X.length + 4), some (R ++ (X ++ (T ++ Y))).length]) =
      [String.mk (R ++ (X ++ (T ++ Y))), String.mk X, String.mk Y] := by
  have h3 : List.range (matcher.numSubexp + 1) = [0, 1, 2] := by decide
  rw [h3]
  simp only [List.map_cons, List.map_nil, submatch, List.getD_cons_zero, List.getD_cons_succ,
    Nat.mul_zero, Nat.mul_one, Nat.zero_add, List.take_length, List.drop_zero]
  have e1 : List.take (7 + X.length) (R ++ (X ++ (T ++ Y))) = R ++ X := by
    rw [← List.append_assoc]
    exact List.take_left' (by rw [List.length_append, hR])
  have e2 : List.drop 7 (R ++ X) = X := List.drop_left' hR
  have e3 : List.drop (7 + X.length + 4) (R ++ (X ++ (T ++ Y))) = Y := by
    rw [← List.append_assoc, ← List.append_assoc]
    exact List.drop_left' (by simp only [List.length_append, hR, hT])
  show [_, String.mk (List.drop 7 (List.take (7 + X.length) _)),
    String.mk (List.drop (7 + X.length + 4) _)] = _
  rw [e1, e2, e3]

/-! ## The command matcher on strings -/

theorem string_ne_empty_iff (X : String) : X ≠ "" ↔ X.data ≠ [] := by
  constructor
  · intro h e; exact h (String.ext e)
  · intro h e; subst e; exact h rfl

theorem isCommand_iff (s X Y : String) :
    IsCommand s X Y ↔ ∃ R T : List Char, s.data = R ++ (X.data ++ (T ++ Y.data)) ∧
      R.map Char.toLower = "rename ".data ∧ T.map Char.toLower = " to ".data ∧
      X.data ≠ [] ∧ Y.data ≠ [] ∧ '\n' ∉ X.data ∧ '\n' ∉ Y.data := by
  have hr : "rename ".data.map Char.toLower = "rename ".data := by decide
  have ht : " to ".data.map Char.toLower = " to ".data := by decide
  unfold IsCommand IsSplit EqIgnoreCase
  rw [hr, ht]
  constructor
  · rintro ⟨⟨R, T, h1, h2, h3, h4, h5⟩, h6, h7⟩
    refine ⟨R.data, T.data, ?_, h2, h3, (string_ne_empty_iff X).1 h4,
      (string_ne_empty_iff Y).1 h5, h6, h7⟩
    rw [h1]
    simp only [String.data_append, List.append_assoc]
  · rintro ⟨R, T, h1, h2, h3, h4, h5, h6, h7⟩
    refine ⟨⟨String.mk R, String.mk T, ?_, h2, h3, (string_ne_empty_iff X).2 h4,
      (string_ne_empty_iff Y).2 h5⟩, h6, h7⟩
    apply String.ext
    rw [h1]
    simp only [String.data_append, List.append_assoc]

theorem findStringSubmatch_of_command (s X Y : String) (h : IsCommand s X Y)
    (hmax : ∀ X1 Y1, IsCommand s X1 Y1 → X1.length ≤ X.length) :
    matcher.FindStringSubmatch s = some [s, X, Y] := by
  obtain ⟨R, T, h1, h2, h3, h4, h5, h6, h7⟩ := (isCommand_iff s X Y).1 h
  have hR : R.length = 7 := by
    have := congrArg List.length h2
    simpa using this
  have hT : T.length = 4 := by
    have := congrArg List.length h3
    simpa using this
  have hrun := (matcher_run_zero s.data _).2 ⟨R, X.data, T, Y.data, h1, h2, h4, h6, h3, h5, h7,
    (by
      intro X1 T1 Y1 e1 e2 e3 e4 e5
      by_cases hX1 : X1 = []
      · rw [hX1]; exact Nat.zero_le _
      · exact hmax (String.mk X1) (String.mk Y1)
          ((isCommand_iff s _ _).2 ⟨R, T1, e1, h2, e3, hX1, e4, e2, e5⟩)), rfl⟩
  unfold Regexp.FindStringSubmatch
  rw [matcher_exec_zero, hrun]
  simp only
  rw [h1, submatch_groups R X.data T Y.data hR hT, ← h1]

theorem command_of_findStringSubmatch (s : String) (l : List String)
    (h : matcher.FindStringSubmatch s = some l) :
    ∃ X Y, l = [s, X, Y] ∧ IsCommand s X Y ∧
      ∀ X1 Y1, IsCommand s X1 Y1 → X1.length ≤ X.length := by
  unfold Regexp.FindStringSubmatch at h
  rw [matcher_exec_zero] at h
  cases hrun : (Regex.capture 0 matcher.expr).run
      ⟨0, s.data, List.replicate (2 * (matcher.numSubexp + 1)) none⟩ some with
  | none => rw [hrun] at h; exact absurd h (by simp)
  | some t =>
    rw [hrun] at h
    simp only [Option.some.injEq] at h
    obtain ⟨R, X, T, Y, h1, h2, h4, h6, h3, h5, h7, hmax, ht⟩ := (matcher_run_zero s.data t).1 hrun
    have hR : R.length = 7 := by
      have := congrArg List.length h2
      simpa using this
    have hT : T.length = 4 := by
      have := congrArg List.length h3
      simpa using this
    refine ⟨String.mk X, String.mk Y, ?_, ?_, ?_⟩
    · rw [← h, ht]
      simp only
      rw [h1, submatch_groups R X T Y hR hT, ← h1]
    · exact (isCommand_iff s _ _).2 ⟨R, T, h1, h2, h3, h4, h5, h6, h7⟩
    · intro X1 Y1 hc
      obtain ⟨R1, T1, e1, e2, e3, e4, e5, e6, e7⟩ := (isCommand_iff s X1 Y1).1 hc
      have hR1 : R1.length = 7 := by
        have := congrArg List.length e2
        simpa using this
      have hRR : R1 = R := by
        rw [h1] at e1
        exact (List.append_inj_left e1 (by rw [hR, hR1])).symm
      rw [hRR] at e1
      exact hmax X1.data T1 Y1.data e1 e6 e3 e5 e7

/-! ## The response decision -/

theorem respond_self (s : Session) (m : MessageCreate) (h : m.Author.ID = s.State.User.ID) :
    respond s m = .ok (none, s) := by
  unfold respond
  rw [if_pos h]

theorem respond_no_match (s : Session) (m : MessageCreate)
    (h : matcher.FindStringSubmatch m.Content = none) :
    respond s m = .ok (none, s) := by
  unfold respond
  rw [h]
  split <;> rfl

/-- What `respond` does with a matching message that the bot did not send, by
the number of mentions. -/
theorem respond_match (s : Session) (m : MessageCreate) (g : List String) (N : String)
    (hne : m.Author.ID ≠ s.State.User.ID)
    (hg : matcher.FindStringSubmatch m.Content = some g) (hN : g[2]? = some N) :
    respond s m =
      match m.Mentions with
      | [] => .ok (none, s)
      | [u] =>
        match s.answer ⟨m.GuildID, u.ID, N⟩ with
        | some err =>
          .ok (some ("Error: Could not rename " ++ u.Username ++ " to " ++ N ++ ": " ++ err),
            s.sent ⟨m.GuildID, u.ID, N⟩)
        | none =>
          .ok (some ("Renamed " ++ u.Username ++ " to " ++ N), s.sent ⟨m.GuildID, u.ID, N⟩)
      | _ :: _ :: _ =>
        .ok (some ("Error: You mentioned " ++ Nat.repr m.Mentions.length
          ++ " users instead of 1"), s) := by
  unfold respond
  rw [if_neg hne, hg]
  simp only [hN]
  cases hm : m.Mentions with
  | nil => simp
  | cons u us =>
    cases us with
    | nil =>
      simp only [List.length_singleton, Nat.lt_irrefl, if_false, List.getElem?_cons_zero,
        Session.GuildMemberNickname, Session.sent]
      cases s.answer ⟨m.GuildID, u.ID, N⟩ <;> rfl
    | cons v vs =>
      simp only [List.length_cons]
      rw [if_neg (by omega), if_pos (by omega)]
      rfl

theorem isSplit_length (text X Y : String) (h : IsSplit text X Y) :
    text.length = 7 + X.length + 4 + Y.length ∧ 0 < X.length ∧ 0 < Y.length := by
  obtain ⟨R, T, h1, h2, h3, h4, h5⟩ := h
  have hR : R.length = 7 := by
    have := congrArg List.length h2
    simpa using this
  have hT : T.length = 4 := by
    have := congrArg List.length h3
    simpa using this
  refine ⟨by rw [h1]; simp only [String.length_append, hR, hT], ?_, ?_⟩
  · exact List.length_pos.2 ((string_ne_empty_iff X).1 h4)
  · exact List.length_pos.2 ((string_ne_empty_iff Y).1 h5)

/-- Among the splits of a text there is one whose first span is longest. -/
theorem exists_longest_command (text : String) (h : ∃ X Y, IsCommand text X Y) :
    ∃ X Y, IsCommand text X Y ∧ ∀ X1 Y1, IsCommand text X1 Y1 → X1.length ≤ X.length := by
  classical
  obtain ⟨X0, Y0, h0⟩ := h
  have hb : ∀ X Y, IsCommand text X Y → X.length ≤ text.length := by
    intro X Y hc
    have := (isSplit_length text X Y hc.1).1
    omega
  have hspec := Nat.findGreatest_spec (P := fun n => ∃ X Y, IsCommand text X Y ∧ X.length = n)
    (hb X0 Y0 h0) ⟨X0, Y0, h0, rfl⟩
  obtain ⟨X, Y, hc, hlen⟩ := hspec
  refine ⟨X, Y, hc, ?_⟩
  intro X1 Y1 hc1
  rw [hlen]
  exact Nat.le_findGreatest (P := fun n => ∃ X Y, IsCommand text X Y ∧ X.length = n)
    (hb X1 Y1 hc1) ⟨X1, Y1, hc1, rfl⟩

theorem findStringSubmatch_eq_none_iff (text : String) :
    matcher.FindStringSubmatch text = none ↔ ¬ ∃ X Y, IsCommand text X Y := by
  constructor
  · intro h hex
    obtain ⟨X, Y, hc, hmax⟩ := exists_longest_command text hex
    rw [findStringSubmatch_of_command text X Y hc hmax] at h
    exact absurd h (by simp)
  · intro h
    cases hf : matcher.FindStringSubmatch text with
    | none => rfl
    | some l =>
      obtain ⟨X, Y, _, hc, _⟩ := command_of_findStringSubmatch text l hf
      exact absurd ⟨X, Y, hc⟩ h

theorem findStringSubmatch_eq_some_iff (text X Y : String) :
    matcher.FindStringSubmatch text = some [text, X, Y] ↔
      (IsCommand text X Y ∧ ∀ X1 Y1, IsCommand text X1 Y1 → X1.length ≤ X.length) := by
  constructor
  · intro h
    obtain ⟨X2, Y2, e, hc, hmax⟩ := command_of_findStringSubmatch text _ h
    simp only [List.cons.injEq, true_and, and_true] at e
    rw [e.1, e.2]
    exact ⟨hc, hmax⟩
  · rintro ⟨hc, hmax⟩
    exact findStringSubmatch_of_command text X Y hc hmax

/-- A match of the pattern always has three groups, so `match[2]` is in range,
and group 2 is non-empty and holds no line feed. -/
theorem group2_of_match (text : String) (g : List String)
    (h : matcher.FindStringSubmatch text = some g) :
    ∃ N, g[2]? = some N ∧ N ≠ "" ∧ '\n' ∉ N.data := by
  obtain ⟨X, Y, e, hc, _⟩ := command_of_findStringSubmatch text g h
  refine ⟨Y, by rw [e]; rfl, ?_, hc.2.2⟩
  obtain ⟨R, T, _, _, _, _, h5⟩ := hc.1
  exact h5

/-! ## Letter case of the text -/

theorem toLower_eq_of_small (c r : Char) (hr : r.toNat < 65) (h : c.toLower = r) : c = r := by
  unfold Char.toLower at h
  simp only [] at h
  split at h
  · rename_i hc
    have h2 := congrArg Char.toNat h
    rw [toNat_ofNat_small _ (by omega)] at h2
    omega
  · exact h

theorem no_line_feed_of_map_eq (l1 l2 : List Char)
    (h : l1.map Char.toLower = l2.map Char.toLower) (h2 : '\n' ∉ l2) : '\n' ∉ l1 := by
  intro h1
  have hm : '\n' ∈ l1.map Char.toLower := List.mem_map.2 ⟨'\n', h1, by decide⟩
  rw [h] at hm
  obtain ⟨c, hc, hcl⟩ := List.mem_map.1 hm
  have := toLower_eq_of_small c '\n' (by decide) hcl
  rw [this] at hc
  exact h2 hc

/-- Two texts that are equal ignoring letter case have the same splits, span
by span, up to letter case. -/
theorem isCommand_transfer (a b : String) (hab : EqIgnoreCase a b) (X Y : String)
    (hc : IsCommand a X Y) :
    ∃ X2 Y2, IsCommand b X2 Y2 ∧ X2.length = X.length ∧ EqIgnoreCase X2 X ∧
      EqIgnoreCase Y2 Y := by
  obtain ⟨R, T, h1, h2, h3, h4, h5, h6, h7⟩ := (isCommand_iff a X Y).1 hc
  have hb : b.data.map Char.toLower = R.map Char.toLower ++ (X.data.map Char.toLower ++
      (T.map Char.toLower ++ Y.data.map Char.toLower)) := by
    unfold EqIgnoreCase at hab
    rw [← hab, h1]
    simp only [List.map_append]
  obtain ⟨R2, b1, e1, m1, hb1⟩ := List.map_eq_append_iff.1 hb
  obtain ⟨X2, b2, e2, m2, hb2⟩ := List.map_eq_append_iff.1 hb1
  obtain ⟨T2, Y2, e3, m3, m4⟩ := List.map_eq_append_iff.1 hb2
  have lX : X2.length = X.data.length := by
    have := congrArg List.length m2
    simpa using this
  have lY : Y2.length = Y.data.length := by
    have := congrArg List.length m4
    simpa using this
  refine ⟨String.mk X2, String.mk Y2, (isCommand_iff b _ _).2 ⟨R2, T2, by rw [e1, e2, e3],
    m1.trans h2, m3.trans h3, ?_, ?_, no_line_feed_of_map_eq _ _ m2 h6,
    no_line_feed_of_map_eq _ _ m4 h7⟩, lX, m2, m4⟩
  · intro e
    have e2 : X2 = [] := e
    rw [e2] at lX
    exact h4 (List.length_eq_zero.1 lX.symm)
  · intro e
    have e2 : Y2 = [] := e
    rw [e2] at lY
    exact h5 (List.length_eq_zero.1 lY.symm)

theorem findStringSubmatch_transfer (a b : String) (hab : EqIgnoreCase a b) (X Y : String)
    (h : matcher.FindStringSubmatch a = some [a, X, Y]) :
    ∃ X2 Y2, matcher.FindStringSubmatch b = some [b, X2, Y2] ∧ EqIgnoreCase X2 X ∧
      EqIgnoreCase Y2 Y ∧ (IsCommand b X Y → X2 = X ∧ Y2 = Y) := by
  obtain ⟨hc, hmax⟩ := (findStringSubmatch_eq_some_iff a X Y).1 h
  obtain ⟨X2, Y2, hc2, hlen, hX, hY⟩ := isCommand_transfer a b hab X Y hc
  have hba : EqIgnoreCase b a := by
    unfold EqIgnoreCase at hab ⊢
    exact hab.symm
  have hmaxb : ∀ X3 Y3, IsCommand b X3 Y3 → X3.length ≤ X.length := by
    intro X3 Y3 hc3
    obtain ⟨X4, Y4, hc4, hlen4, _, _⟩ := isCommand_transfer b a hba X3 Y3 hc3
    have := hmax X4 Y4 hc4
    omega
  refine ⟨X2, Y2, (findStringSubmatch_eq_some_iff b X2 Y2).2 ⟨hc2, ?_⟩, hX, hY, ?_⟩
  · intro X3 Y3 hc3
    rw [hlen]
    exact hmaxb X3 Y3 hc3
  · intro hcb
    have h1 := (findStringSubmatch_eq_some_iff b X2 Y2).2
      ⟨hc2, by intro X3 Y3 hc3; rw [hlen]; exact hmaxb X3 Y3 hc3⟩
    have h2 := (findStringSubmatch_eq_some_iff b X Y).2 ⟨hcb, hmaxb⟩
    rw [h1] at h2
    simp only [Option.some.injEq, List.cons.injEq, true_and, and_true] at h2
    exact h2

theorem parsedCommand_eq_some_iff (text X Y : String) :
    parsedCommand text = some (X, Y) ↔
      matcher.FindStringSubmatch text = some [text, X, Y] := by
  unfold parsedCommand
  cases hf : matcher.FindStringSubmatch text with
  | none => simp
  | some g =>
    obtain ⟨X2, Y2, e, _⟩ := command_of_findStringSubmatch text g hf
    rw [e]
    simp

theorem parsedCommand_eq_none_iff (text : String) :
    parsedCommand text = none ↔ matcher.FindStringSubmatch text = none := by
  unfold parsedCommand
  cases hf : matcher.FindStringSubmatch text <;> simp

theorem parsedCommand_transfer (a b : String) (hab : EqIgnoreCase a b) (X Y : String)
    (h : parsedCommand a = some (X, Y)) :
    ∃ X2 Y2, parsedCommand b = some (X2, Y2) ∧ EqIgnoreCase X2 X ∧ EqIgnoreCase Y2 Y ∧
      (IsCommand b X Y → X2 = X ∧ Y2 = Y) := by
  obtain ⟨X2, Y2, h2, hX, hY, hsame⟩ :=
    findStringSubmatch_transfer a b hab X Y ((parsedCommand_eq_some_iff a X Y).1 h)
  exact ⟨X2, Y2, (parsedCommand_eq_some_iff b X2 Y2).2 h2, hX, hY, hsame⟩

theorem eqIgnoreCase_upper_lower (X Y : String) :
    EqIgnoreCase ("RENAME " ++ X ++ " TO " ++ Y) ("rename " ++ X ++ " to " ++ Y) := by
  unfold EqIgnoreCase
  simp only [String.data_append, List.map_append]
  have h1 : "RENAME ".data.map Char.toLower = "rename ".data.map Char.toLower := by decide
  have h2 : " TO ".data.map Char.toLower = " to ".data.map Char.toLower := by decide
  rw [h1, h2]

/-! ## The claims -/

/-- C1 as stated fails: the text "rename alice to bob" matches the pattern and
carol is not the bot, yet with an empty mention list `respond` returns nil. -/
theorem reply_iff_match_counterexample :
    ((∃ g, matcher.FindStringSubmatch (message carol "rename alice to bob" []).Content = some g) ∧
        (message carol "rename alice to bob" []).Author.ID ≠ (session none).State.User.ID) ∧
      ¬ ∃ r s1, respond (session none) (message carol "rename alice to bob" []) =
        .ok (some r, s1) := by
  refine ⟨⟨⟨_, (by decide :
    matcher.FindStringSubmatch (message carol "rename alice to bob" []).Content =
      some ["rename alice to bob", "alice", "bob"])⟩, by decide⟩, ?_⟩
  rintro ⟨r, s1, h⟩
  rw [respond_match (session none) (message carol "rename alice to bob" [])
    ["rename alice to bob", "alice", "bob"] "bob" (by decide) (by decide) (by decide)] at h
  simp [message] at h

/-- C1 (amended): `respond` returns a reply exactly when the text matches the
command pattern, the sender is not the bot and at least one user is
mentioned; in every other case it returns nil and leaves the session as it
was. It never faults. -/
theorem reply_iff_match_and_mention (s : Session) (m : MessageCreate) :
    ((∃ r s1, respond s m = .ok (some r, s1)) ↔
        ((∃ g, matcher.FindStringSubmatch m.Content = some g) ∧
          m.Author.ID ≠ s.State.User.ID ∧ m.Mentions ≠ [])) ∧
      (respond s m = .ok (none, s) ↔
        ¬ ((∃ g, matcher.FindStringSubmatch m.Content = some g) ∧
          m.Author.ID ≠ s.State.User.ID ∧ m.Mentions ≠ [])) := by
  by_cases hself : m.Author.ID = s.State.User.ID
  · rw [respond_self s m hself]
    simp [hself]
  · cases hg : matcher.FindStringSubmatch m.Content with
    | none =>
      rw [respond_no_match s m hg]
      simp
    | some g =>
      obtain ⟨N, hN, _, _⟩ := group2_of_match m.Content g hg
      rw [respond_match s m g N hself hg hN]
      cases hm : m.Mentions with
      | nil => simp [hself]
      | cons u us =>
        cases us with
        | nil =>
          cases ha : s.answer ⟨m.GuildID, u.ID, N⟩ <;> simp [hself, ha]
        | cons v vs => simp [hself]

/-- C2: a matching message from another user with exactly one mention `u`,
when the nickname request succeeds, is answered with exactly
"Renamed " ++ the mention's username ++ " to " ++ the second group. -/
theorem reply_on_success (s : Session) (m : MessageCreate) (g : List String) (N : String)
    (u : User) (hne : m.Author.ID ≠ s.State.User.ID)
    (hg : matcher.FindStringSubmatch m.Content = some g) (hN : g[2]? = some N)
    (hm : m.Mentions = [u]) (hok : s.answer ⟨m.GuildID, u.ID, N⟩ = none) :
    respond s m =
      .ok (some ("Renamed " ++ u.Username ++ " to " ++ N), s.sent ⟨m.GuildID, u.ID, N⟩) := by
  rw [respond_match s m g N hne hg hN, hm]
  simp only [hok]

/-- C2 at "rename alice to bob" with the one mention alice. -/
theorem reply_on_success_witness :
    respond (session none) (message carol "rename alice to bob" [alice]) =
      .ok (some "Renamed alice to bob", (session none).sent ⟨"id-guild", "id-alice", "bob"⟩) :=
  reply_on_success (session none) (message carol "rename alice to bob" [alice])
    ["rename alice to bob", "alice", "bob"] "bob" alice (by decide) (by decide) (by decide)
    rfl rfl

/-- C3: a matching message from another user with exactly one mention `u`,
when the nickname request fails with an error whose text is `e`, is answered
with exactly "Error: Could not rename " ++ the mention's username ++ " to " ++
the second group ++ ": " ++ `e`; the result is a reply, not a fault and not
nil. -/
theorem reply_on_failure (s : Session) (m : MessageCreate) (g : List String) (N e : String)
    (u : User) (hne : m.Author.ID ≠ s.State.User.ID)
    (hg : matcher.FindStringSubmatch m.Content = some g) (hN : g[2]? = some N)
    (hm : m.Mentions = [u]) (herr : s.answer ⟨m.GuildID, u.ID, N⟩ = some e) :
    respond s m =
      .ok (some ("Error: Could not rename " ++ u.Username ++ " to " ++ N ++ ": " ++ e),
        s.sent ⟨m.GuildID, u.ID, N⟩) := by
  rw [respond_match s m g N hne hg hN, hm]
  simp only [herr]

/-- C3 at "rename alice to bob", the one mention alice and the error
"permission denied". -/
theorem reply_on_failure_witness :
    respond (session (some "permission denied")) (message carol "rename alice to bob" [alice]) =
      .ok (some "Error: Could not rename alice to bob: permission denied",
        (session (some "permission denied")).sent ⟨"id-guild", "id-alice", "bob"⟩) :=
  reply_on_failure (session (some "permission denied"))
    (message carol "rename alice to bob" [alice])
    ["rename alice to bob", "alice", "bob"] "bob" "permission denied" alice
    (by decide) (by decide) (by decide) rfl rfl

/-- C4: a matching message from another user with `n > 1` mentions is answered
with exactly "Error: You mentioned n users instead of 1", `n` as a decimal
numeral, and no request is sent, whatever the platform would answer. -/
theorem reply_on_many_mentions (s : Session) (m : MessageCreate) (g : List String)
    (hne : m.Author.ID ≠ s.State.User.ID)
    (hg : matcher.FindStringSubmatch m.Content = some g) (hn : 1 < m.Mentions.length) :
    respond s m =
      .ok (some ("Error: You mentioned " ++ String.mk (Nat.toDigits 10 m.Mentions.length)
        ++ " users instead of 1"), s) := by
  obtain ⟨N, hN, _, _⟩ := group2_of_match m.Content g hg
  rw [respond_match s m g N hne hg hN]
  cases hm : m.Mentions with
  | nil => rw [hm] at hn; simp at hn
  | cons u us =>
    cases us with
    | nil => rw [hm] at hn; simp at hn
    | cons v vs => rfl

/-- C4 at two mentions. -/
theorem reply_on_many_mentions_witness :
    respond (session none) (message carol "rename alice to bob" [alice, dave]) =
      .ok (some "Error: You mentioned 2 users instead of 1", session none) :=
  reply_on_many_mentions (session none) (message carol "rename alice to bob" [alice, dave])
    ["rename alice to bob", "alice", "bob"] (by decide) (by decide) (by decide)

/-- C5: a matching message from another user with no mention gets no reply,
and no request is sent, whatever the platform would answer. -/
theorem silent_without_mention (s : Session) (m : MessageCreate) (g : List String)
    (hne : m.Author.ID ≠ s.State.User.ID)
    (hg : matcher.FindStringSubmatch m.Content = some g) (hm : m.Mentions = []) :
    respond s m = .ok (none, s) := by
  obtain ⟨N, hN, _, _⟩ := group2_of_match m.Content g hg
  rw [respond_match s m g N hne hg hN, hm]

/-- C5 at "rename alice to bob" without a mention, on a platform whose
answer would be an error. -/
theorem silent_without_mention_witness :
    respond (session (some "permission denied")) (message carol "rename alice to bob" []) =
      .ok (none, session (some "permission denied")) :=
  silent_without_mention (session (some "permission denied"))
    (message carol "rename alice to bob" []) ["rename alice to bob", "alice", "bob"]
    (by decide) (by decide) rfl

/-- C6: a message the bot sent itself, or whose text is not of the shape
`R ++ X ++ T ++ Y` (`R` is "rename " and `T` is " to " ignoring letter case, `X`
and `Y` non-empty), gets no reply and no request is sent, whatever the
mention list and whatever the platform would answer. -/
theorem silent_on_self_or_non_command (s : Session) (m : MessageCreate)
    (h : m.Author.ID = s.State.User.ID ∨ ¬ ∃ X Y, IsSplit m.Content X Y) :
    respond s m = .ok (none, s) := by
  rcases h with h | h
  · exact respond_self s m h
  · apply respond_no_match
    rw [findStringSubmatch_eq_none_iff]
    rintro ⟨X, Y, hc⟩
    exact h ⟨X, Y, hc.1⟩

/-- C6 at a command the bot sent itself (one mention) and at the text "hello"
from carol (two mentions, on a platform that would answer with an error). -/
theorem silent_on_self_or_non_command_witness :
    respond (session none) (message cowman "rename alice to bob" [alice]) =
        .ok (none, session none) ∧
      respond (session (some "permission denied")) (message carol "hello" [alice, dave]) =
        .ok (none, session (some "permission denied")) :=
  ⟨silent_on_self_or_non_command (session none) (message cowman "rename alice to bob" [alice])
      (Or.inl rfl),
    silent_on_self_or_non_command (session (some "permission denied"))
      (message carol "hello" [alice, dave])
      (Or.inr (by
        rintro ⟨X, Y, h⟩
        have h1 := (isSplit_length _ X Y h).1
        have h2 : (message carol "hello" [alice, dave]).Content.length = 5 := by decide
        omega))⟩

/-- C7: `matcher.FindStringSubmatch` returns groups `X`, `Y` exactly when the
text is `R ++ X ++ T ++ Y` (`R` is "rename " and `T` is " to " ignoring letter
case, `X` and `Y` non-empty and free of line feeds) and no other such split
has a longer `X`; it returns nil exactly when the text has no such split; a
match always consists of the whole text and the two groups. So
"rename alice to bob" gives ("alice", "bob") and "rename a to b to c" gives
("a to b", "c"). -/
theorem matcher_takes_longest_split :
    (∀ text X Y : String, matcher.FindStringSubmatch text = some [text, X, Y] ↔
        (IsCommand text X Y ∧ ∀ X1 Y1, IsCommand text X1 Y1 → X1.length ≤ X.length)) ∧
      (∀ text : String, matcher.FindStringSubmatch text = none ↔
        ¬ ∃ X Y, IsCommand text X Y) ∧
      (∀ (text : String) (g : List String), matcher.FindStringSubmatch text = some g →
        ∃ X Y, g = [text, X, Y]) ∧
      matcher.FindStringSubmatch "rename alice to bob" =
        some ["rename alice to bob", "alice", "bob"] ∧
      matcher.FindStringSubmatch "rename a to b to c" =
        some ["rename a to b to c", "a to b", "c"] := by
  refine ⟨findStringSubmatch_eq_some_iff, findStringSubmatch_eq_none_iff, ?_,
    by decide, by decide⟩
  intro text g h
  obtain ⟨X, Y, e, _⟩ := command_of_findStringSubmatch text g h
  exact ⟨X, Y, e⟩

/-- C9: `respond` sends exactly one nickname request, for the message's
guild, the id of the one mentioned user and the second group of the text,
when the sender is not the bot, the text matches and exactly one user is
mentioned (whatever the platform answers: an error is not retried, and the
first group plays no part); in every other case it sends none. -/
theorem requests_sent (s : Session) (m : MessageCreate) :
    (∀ g N u, m.Author.ID ≠ s.State.User.ID →
        matcher.FindStringSubmatch m.Content = some g → g[2]? = some N → m.Mentions = [u] →
        ∃ reply, respond s m = .ok (reply, s.sent ⟨m.GuildID, u.ID, N⟩)) ∧
      ((m.Author.ID = s.State.User.ID ∨ matcher.FindStringSubmatch m.Content = none ∨
          m.Mentions.length ≠ 1) →
        ∃ reply, respond s m = .ok (reply, s)) := by
  constructor
  · intro g N u hne hg hN hm
    rw [respond_match s m g N hne hg hN, hm]
    cases ha : s.answer ⟨m.GuildID, u.ID, N⟩ with
    | none => exact ⟨_, by simp only [ha]; rfl⟩
    | some e => exact ⟨_, by simp only [ha]; rfl⟩
  · intro h
    by_cases hself : m.Author.ID = s.State.User.ID
    · exact ⟨none, respond_self s m hself⟩
    · cases hg : matcher.FindStringSubmatch m.Content with
      | none => exact ⟨none, respond_no_match s m hg⟩
      | some g =>
        obtain ⟨N, hN, _, _⟩ := group2_of_match m.Content g hg
        rw [respond_match s m g N hself hg hN]
        have hlen : m.Mentions.length ≠ 1 := by
          rcases h with h | h | h
          · exact absurd h hself
          · rw [hg] at h; exact absurd h (by simp)
          · exact h
        cases hm : m.Mentions with
        | nil => exact ⟨_, rfl⟩
        | cons u us =>
          cases us with
          | nil => rw [hm] at hlen; simp at hlen
          | cons v vs => exact ⟨_, rfl⟩

/-- C9 at "rename dave to bob" with the one mention alice on a platform that
answers with an error (one request, for alice), and at the same text with two
mentions (no request). -/
theorem requests_sent_witness :
    (∃ reply, respond (session (some "permission denied"))
        (message carol "rename dave to bob" [alice]) =
        .ok (reply, (session (some "permission denied")).sent
          ⟨"id-guild", "id-alice", "bob"⟩)) ∧
      (∃ reply, respond (session none) (message carol "rename dave to bob" [alice, dave]) =
        .ok (reply, session none)) :=
  ⟨(requests_sent (session (some "permission denied"))
      (message carol "rename dave to bob" [alice])).1
      ["rename dave to bob", "dave", "bob"] "bob" alice (by decide) (by decide) (by decide) rfl,
    (requests_sent (session none) (message carol "rename dave to bob" [alice, dave])).2
      (Or.inr (Or.inr (by decide)))⟩

theorem no_line_feed_of_command (text X Y : String) (h : IsCommand text X Y) :
    '\n' ∉ text.data := by
  obtain ⟨R, T, h1, h2, h3, _, _, h6, h7⟩ := (isCommand_iff text X Y).1 h
  have hmap : ∀ l : List Char, '\n' ∈ l → '\n' ∈ l.map Char.toLower := by
    intro l hl
    exact List.mem_map.2 ⟨'\n', hl, by decide⟩
  rw [h1]
  simp only [List.mem_append, not_or]
  refine ⟨?_, h6, ?_, h7⟩
  · intro hR
    have := hmap R hR
    rw [h2] at this
    revert this; decide
  · intro hT
    have := hmap T hT
    rw [h3] at this
    revert this; decide

/-- C10: a text that holds a line feed anywhere does not match the pattern, so
`respond` returns nil and sends no request, whoever sent the message and
whatever it mentions; and every nickname `respond` sends in a request is
non-empty and free of line feeds. -/
theorem line_feed_never_matches (s : Session) (m : MessageCreate) :
    ('\n' ∈ m.Content.data →
        matcher.FindStringSubmatch m.Content = none ∧ respond s m = .ok (none, s)) ∧
      (∀ reply s1, respond s m = .ok (reply, s1) →
        ∃ sent, s1.requests = s.requests ++ sent ∧
          ∀ q ∈ sent, q.nickname ≠ "" ∧ '\n' ∉ q.nickname.data) := by
  constructor
  · intro h
    have hnone : matcher.FindStringSubmatch m.Content = none := by
      rw [findStringSubmatch_eq_none_iff]
      rintro ⟨X, Y, hc⟩
      exact no_line_feed_of_command _ X Y hc h
    exact ⟨hnone, respond_no_match s m hnone⟩
  · intro reply s1 hr
    have hkeep : ∀ r : Option String, respond s m = .ok (r, s) →
        ∃ sent, s1.requests = s.requests ++ sent ∧
          ∀ q ∈ sent, q.nickname ≠ "" ∧ '\n' ∉ q.nickname.data := by
      intro r h
      rw [h] at hr
      simp only [Except.ok.injEq, Prod.mk.injEq] at hr
      refine ⟨[], by rw [← hr.2]; simp, ?_⟩
      intro q hq; simp at hq
    by_cases hself : m.Author.ID = s.State.User.ID
    · exact hkeep none (respond_self s m hself)
    · cases hg : matcher.FindStringSubmatch m.Content with
      | none => exact hkeep none (respond_no_match s m hg)
      | some g =>
        obtain ⟨N, hN, hN1, hN2⟩ := group2_of_match m.Content g hg
        have hm := respond_match s m g N hself hg hN
        cases hmen : m.Mentions with
        | nil =>
          rw [hmen] at hm
          exact hkeep none hm
        | cons u us =>
          cases us with
          | nil =>
            rw [hmen] at hm
            have hs1 : s1 = s.sent ⟨m.GuildID, u.ID, N⟩ := by
              rw [hm] at hr
              cases ha : s.answer ⟨m.GuildID, u.ID, N⟩ with
              | none =>
                simp only [ha, Except.ok.injEq, Prod.mk.injEq] at hr
                exact hr.2.symm
              | some e =>
                simp only [ha, Except.ok.injEq, Prod.mk.injEq] at hr
                exact hr.2.symm
            refine ⟨[⟨m.GuildID, u.ID, N⟩], by rw [hs1]; rfl, ?_⟩
            intro q hq
            simp only [List.mem_singleton] at hq
            rw [hq]
            exact ⟨hN1, hN2⟩
          | cons v vs =>
            rw [hmen] at hm
            exact hkeep _ hm

/-- C10 at "rename alice to bob" followed by a line feed, and followed by a
line feed and "thanks". -/
theorem line_feed_never_matches_witness :
    (matcher.FindStringSubmatch "rename alice to bob\n" = none ∧
        respond (session none) (message carol "rename alice to bob\n" [alice]) =
          .ok (none, session none)) ∧
      (matcher.FindStringSubmatch "rename alice to bob\nthanks" = none ∧
        respond (session none) (message carol "rename alice to bob\nthanks" [alice]) =
          .ok (none, session none)) :=
  ⟨(line_feed_never_matches (session none)
      (message carol "rename alice to bob\n" [alice])).1 (by decide),
    (line_feed_never_matches (session none)
      (message carol "rename alice to bob\nthanks" [alice])).1 (by decide)⟩

/-- C8 as stated fails for the subject "a" and the new name "b to c": the
two texts parse to different subjects, "a TO b" and "a to b". -/
theorem case_insensitive_counterexample :
    parsedCommand ("RENAME " ++ "a" ++ " TO " ++ "b to c") = some ("a TO b", "c") ∧
      parsedCommand ("rename " ++ "a" ++ " to " ++ "b to c") = some ("a to b", "c") ∧
      parsedCommand ("RENAME " ++ "a" ++ " TO " ++ "b to c") ≠
        parsedCommand ("rename " ++ "a" ++ " to " ++ "b to c") := by
  decide

/-- C8 (amended): for every subject `X` and new name `Y`, the text
"RENAME X TO Y" parses to `(X, Y)` exactly when "rename X to Y" does; the two
texts match or fail to match together; and when they match, their subjects
are equal ignoring letter case and so are their new names. So
"RENAME alice TO bob" and "rename alice to bob" both parse to
("alice", "bob"). -/
theorem case_insensitive_amended (X Y : String) :
    (parsedCommand ("RENAME " ++ X ++ " TO " ++ Y) = some (X, Y) ↔
        parsedCommand ("rename " ++ X ++ " to " ++ Y) = some (X, Y)) ∧
      (parsedCommand ("RENAME " ++ X ++ " TO " ++ Y) = none ↔
        parsedCommand ("rename " ++ X ++ " to " ++ Y) = none) ∧
      (∀ X1 Y1, parsedCommand ("rename " ++ X ++ " to " ++ Y) = some (X1, Y1) →
        ∃ X2 Y2, parsedCommand ("RENAME " ++ X ++ " TO " ++ Y) = some (X2, Y2) ∧
          EqIgnoreCase X2 X1 ∧ EqIgnoreCase Y2 Y1) ∧
      parsedCommand "RENAME alice TO bob" = some ("alice", "bob") ∧
      parsedCommand "rename alice to bob" = some ("alice", "bob") := by
  have hul := eqIgnoreCase_upper_lower X Y
  have hlu : EqIgnoreCase ("rename " ++ X ++ " to " ++ Y) ("RENAME " ++ X ++ " TO " ++ Y) := by
    unfold EqIgnoreCase at hul ⊢
    exact hul.symm
  have hup : ∀ t : String, IsCommand t X Y → IsCommand ("RENAME " ++ X ++ " TO " ++ Y) X Y := by
    rintro t ⟨⟨_, _, _, _, _, hX, hY⟩, n1, n2⟩
    exact ⟨⟨"RENAME ", " TO ", rfl, by decide, by decide, hX, hY⟩, n1, n2⟩
  have hlo : ∀ t : String, IsCommand t X Y → IsCommand ("rename " ++ X ++ " to " ++ Y) X Y := by
    rintro t ⟨⟨_, _, _, _, _, hX, hY⟩, n1, n2⟩
    exact ⟨⟨"rename ", " to ", rfl, by decide, by decide, hX, hY⟩, n1, n2⟩
  refine ⟨⟨?_, ?_⟩, ⟨?_, ?_⟩, ?_, by decide, by decide⟩
  · intro h
    obtain ⟨X2, Y2, h2, _, _, hsame⟩ := parsedCommand_transfer _ _ hul X Y h
    have hc := ((findStringSubmatch_eq_some_iff _ X Y).1
      ((parsedCommand_eq_some_iff _ X Y).1 h)).1
    obtain ⟨e1, e2⟩ := hsame (hlo _ hc)
    rw [e1, e2] at h2
    exact h2
  · intro h
    obtain ⟨X2, Y2, h2, _, _, hsame⟩ := parsedCommand_transfer _ _ hlu X Y h
    have hc := ((findStringSubmatch_eq_some_iff _ X Y).1
      ((parsedCommand_eq_some_iff _ X Y).1 h)).1
    obtain ⟨e1, e2⟩ := hsame (hup _ hc)
    rw [e1, e2] at h2
    exact h2
  · intro h
    cases hp : parsedCommand ("rename " ++ X ++ " to " ++ Y) with
    | none => rfl
    | some p =>
      obtain ⟨X1, Y1⟩ := p
      obtain ⟨X2, Y2, h2, _⟩ := parsedCommand_transfer _ _ hlu X1 Y1 hp
      rw [h] at h2
      exact absurd h2 (by simp)
  · intro h
    cases hp : parsedCommand ("RENAME " ++ X ++ " TO " ++ Y) with
    | none => rfl
    | some p =>
      obtain ⟨X1, Y1⟩ := p
      obtain ⟨X2, Y2, h2, _⟩ := parsedCommand_transfer _ _ hul X1 Y1 hp
      rw [h] at h2
      exact absurd h2 (by simp)
  · intro X1 Y1 h
    obtain ⟨X2, Y2, h2, hX, hY, _⟩ := parsedCommand_transfer _ _ hlu X1 Y1 h
    exact ⟨X2, Y2, h2, hX, hY⟩

end Cowman
